import Mathlib

/-!
Verification development for the Rune desktop app (Tensor-Space/rune-desktop-app).

The repository ships the React/TSX UI layer of a hotkey-triggered
recording/transcription app. The UI talks to a native backend over Tauri
`invoke` commands and an event bus. The UI-side logic (event listeners,
level smoothing, hotkey recording, history presentation, command argument
construction) is embedded here directly from the TypeScript source. The
native pipeline (VoiceSessionController, AudioCaptureEngine, device
settings commands) is not part of the provided source; those pieces are
modelled from the specification document and are marked as such in their
doc comments.

Conventions of the embedding:
- JS numbers are modelled as rationals (`ℚ`), JS strings as `String`.
- `String.prototype.toUpperCase` is modelled characterwise by
  `Char.toUpper` (all strings the claims quantify over are ASCII).
- A JS object literal passed to `invoke` is modelled as an association
  list of (argument name, value) pairs.
- An ISO8601 timestamp is represented by its epoch-milliseconds value
  (the value `new Date(t).getTime()` that the comparator in
  HistoryView.tsx actually sorts by), as an `Int`.
-/

namespace Rune

/-- The `ProcessingStatus` union type from
`src/windows/main/MainWindow.tsx` (lines 120-128). -/
inductive ProcessingStatus
  | idle
  | recording
  | transcribing
  | thinking_action
  | generating_text
  | completed
  | cancelled
  | error
deriving DecidableEq, Repr

/-- Wire string of each status, as written in the TS union type. -/
def ProcessingStatus.toWire : ProcessingStatus → String
  | .idle => "idle"
  | .recording => "recording"
  | .transcribing => "transcribing"
  | .thinking_action => "thinking_action"
  | .generating_text => "generating_text"
  | .completed => "completed"
  | .cancelled => "cancelled"
  | .error => "error"

/-- The eight wire strings of the `ProcessingStatus` union type in
`src/windows/main/MainWindow.tsx`. -/
def processingStatusWireValues : List String :=
  ["idle", "recording", "transcribing", "thinking_action",
   "generating_text", "completed", "cancelled", "error"]

/-- Values the main window's `processingStatus` state can hold: the
listener casts the payload to the `ProcessingStatus` union type, which
admits exactly the eight wire strings. -/
def parseProcessingStatus : String → Option ProcessingStatus
  | "idle" => some .idle
  | "recording" => some .recording
  | "transcribing" => some .transcribing
  | "thinking_action" => some .thinking_action
  | "generating_text" => some .generating_text
  | "completed" => some .completed
  | "cancelled" => some .cancelled
  | "error" => some .error
  | _ => none

/-- Channel the main window's status listener subscribes to:
`listen("audio-processing-status", ...)` in
`src/windows/main/MainWindow.tsx` (line 181). -/
def mainWindowStatusChannel : String := "audio-processing-status"

/-- Channel the main window's level listener subscribes to:
`listen("audio-levels", ...)` in `src/windows/main/MainWindow.tsx`
(line 166). -/
def audioLevelsChannel : String := "audio-levels"

/-- Modelled from the spec: the EventBus publishes session status
transitions as `audio-processing-status` events whose payload is one of
the ProcessingStatus values (spec sections 4.5 and 6). The emitting code
lives in the native backend, which is not under src/. -/
def emitStatusEvent (s : ProcessingStatus) : String × String :=
  (mainWindowStatusChannel, s.toWire)

/-! ### Hotkey recorder
Embedded from `src/windows/settings/components/HotkeySettings/HotkeyRecorder.tsx`
(the identical component also appears in unnamed/part_008, lines 129-288). -/

/-- Characterwise model of `String.prototype.toUpperCase`. -/
def jsToUpperCase (s : String) : String := s.map Char.toUpper

/-- The `specialKeys` record in `keyToCode` (HotkeyRecorder.tsx lines 14-29). -/
def specialKeys : List (String × String) :=
  [(" ", "Space"), ("ArrowUp", "ArrowUp"), ("ArrowDown", "ArrowDown"),
   ("ArrowLeft", "ArrowLeft"), ("ArrowRight", "ArrowRight"),
   ("Control", "Control"), ("Shift", "Shift"), ("Alt", "Alt"),
   ("Meta", "Super"), ("Enter", "Enter"), ("Escape", "Escape"),
   ("Backspace", "Backspace"), ("Delete", "Delete"), ("Tab", "Tab")]

/-- The JS regex test `/^[A-Z]$/.test(s)`. -/
def testUpperLetter (s : String) : Bool :=
  match s.data with
  | [c] => decide ('A' ≤ c) && decide (c ≤ 'Z')
  | _ => false

/-- The JS regex test `/^[0-9]$/.test(s)`. -/
def testDigit (s : String) : Bool :=
  match s.data with
  | [c] => decide ('0' ≤ c) && decide (c ≤ '9')
  | _ => false

/-- The JS regex test `/^F\d+$/.test(s)`. -/
def testFKey (s : String) : Bool :=
  match s.data with
  | c :: rest =>
      decide (c = 'F') && !rest.isEmpty &&
        rest.all (fun d => decide ('0' ≤ d) && decide (d ≤ '9'))
  | _ => false

/-- The `keyToCode` function (HotkeyRecorder.tsx lines 13-48): special
keys first, then single uppercase letters, single digits, F-keys, and a
default uppercasing branch. -/
def keyToCode (key : String) : String :=
  match specialKeys.lookup key with
  | some code => code
  | none =>
      if testUpperLetter key then "Key" ++ key
      else if testDigit key then "Digit" ++ key
      else if testFKey key then jsToUpperCase key
      else jsToUpperCase key

/-- The `modifierMap` record in `modifierToCode` (HotkeyRecorder.tsx lines 50-59). -/
def modifierMap : List (String × String) :=
  [("Control", "CONTROL"), ("Shift", "SHIFT"), ("Alt", "ALT"), ("Meta", "SUPER")]

/-- The `modifierToCode` function (HotkeyRecorder.tsx lines 50-59). -/
def modifierToCode (key : String) : String :=
  match modifierMap.lookup key with
  | some m => m
  | none => jsToUpperCase key

/-- The `["Control", "Shift", "Alt", "Meta"]` guard list in
`handleKeyDown` (HotkeyRecorder.tsx line 76). -/
def modifierKeyNames : List String := ["Control", "Shift", "Alt", "Meta"]

/-- The `recordingStep` state of the hotkey recorder: `"key" | "modifier"`. -/
inductive RecStep
  | key
  | modifier
deriving DecidableEq, Repr

/-- The react state of the `HotkeyRecorder` component that
`handleKeyDown` reads and writes. -/
structure RecorderState where
  isRecording : Bool
  recordingStep : RecStep
  tempKey : String
deriving DecidableEq, Repr

/-- The `handleKeyDown` listener of HotkeyRecorder.tsx (lines 71-90) as a
pure transition: given the component state and the pressed `e.key`, it
returns the updated state together with the `onHotkeySet(key, modifier)`
call it makes, if any. -/
def handleKeyDown (st : RecorderState) (eKey : String) :
    RecorderState × Option (String × String) :=
  if st.isRecording = false then (st, none)
  else
    match st.recordingStep with
    | .modifier =>
        if eKey ∈ modifierKeyNames then
          ({ isRecording := false, recordingStep := .key, tempKey := st.tempKey },
           some (st.tempKey, modifierToCode eKey))
        else (st, none)
    | .key =>
        ({ st with recordingStep := .modifier,
                   tempKey := keyToCode (jsToUpperCase eKey) }, none)

/-! ### update_shortcuts invocations
Embedded from `HotkeySettings` in unnamed/part_008 (lines 43-75): the
argument objects passed to `invoke("update_shortcuts", ...)`. -/

/-- Argument object of the `invoke("update_shortcuts", ...)` call in
`handleHotkeySet` (unnamed/part_008 lines 50-53). -/
def handleHotkeySetArgs (key modifier : String) : List (String × String) :=
  [("modifier", modifier), ("key", key)]

/-- Argument object of the `invoke("update_shortcuts", ...)` call in
`handleHotkeyRemove` (unnamed/part_008 lines 65-68), written in the
source as the object with fields `key: ""` and `modifiers: ""`. -/
def handleHotkeyRemoveArgs : List (String × String) :=
  [("key", ""), ("modifiers", "")]

/-- Parameter names of the backend command per the spec signature
`update_shortcuts(key:string, modifier:string)` (spec section 6). -/
def updateShortcutsParams : List String := ["key", "modifier"]

/-! ### Audio device settings
The `AudioDevice` shape is the UI type in unnamed/part_002; the
`get_devices` / `set_default_device` / `get_default_device` commands live
in the native backend, which is not under src/, so their behaviour is
modelled from the spec. -/

/-- The `AudioDevice` interface from unnamed/part_002. -/
structure AudioDevice where
  id : String
  name : String
deriving DecidableEq, Repr

/-- Modelled from the spec: the backend settings state the device
commands read and write — the enumerated devices snapshot and the
persisted default device id (spec sections 3 and 6; the command
implementations are in the native backend, not under src/). -/
structure DeviceSettings where
  devices : List AudioDevice
  defaultDevice : Option String
deriving DecidableEq, Repr

/-- Modelled from the spec: `set_default_device(deviceId)` persists the
chosen device id (spec section 6). -/
def set_default_device (st : DeviceSettings) (deviceId : String) : DeviceSettings :=
  { st with defaultDevice := some deviceId }

/-- Modelled from the spec: `get_default_device()` returns an optional
`(id, name)` descriptor for the configured default device, looked up in
the enumerated devices (spec section 6). -/
def get_default_device (st : DeviceSettings) : Option AudioDevice :=
  match st.defaultDevice with
  | none => none
  | some did => st.devices.find? (fun d => d.id == did)

/-! ### VoiceSessionController
The recording/transcription session state machine lives in the native
backend crates, which are not under src/; it is modelled here from spec
sections 3, 4.3 and 5. -/

/-- The error taxonomy of spec section 7. -/
inductive RpcError
  | AlreadyRecording
  | EmptyRecording
  | PermissionDenied
  | DeviceUnavailable
  | EngineFailure
  | StorageUnavailable
deriving DecidableEq, Repr

/-- Modelled from the spec: a Session — unique id, start timestamp,
current ProcessingStatus, accumulated transcript, cancellation flag
(spec section 3); the accumulated audio buffer is the capture
accumulation of spec section 4.3. -/
structure Session where
  sessionId : Nat
  startTime : Nat
  status : ProcessingStatus
  transcript : String
  cancelRequested : Bool
  audioBuffer : List Int
deriving DecidableEq, Repr

/-- Modelled from the spec: the VoiceSessionController state — the single
global recording slot holding at most one Session (spec sections 3 and 9),
an id counter, and whether an action/LLM step is configured
(spec section 4.3). -/
structure ControllerState where
  session : Option Session
  nextId : Nat
  actionConfigured : Bool
deriving DecidableEq, Repr

/-- Status of the controller: the active session's status, or `idle` when
the slot is empty (a terminal session is dropped and the controller
resets to idle, spec section 3). -/
def ControllerState.status (st : ControllerState) : ProcessingStatus :=
  match st.session with
  | none => .idle
  | some s => s.status

/-- The four statuses strictly between `begin_recording()` and
completion (spec section 4.3). -/
def activeStatuses : List ProcessingStatus :=
  [.recording, .transcribing, .thinking_action, .generating_text]

/-- Modelled from the spec: `begin()` is allowed only from `idle`; it
creates a new Session, starts capture and transitions to `recording`;
it fails with `AlreadyRecording` if not idle (spec section 4.3). The
command returns its result alongside the (possibly unchanged) state. -/
def begin_recording (now : Nat) (st : ControllerState) :
    Except RpcError Unit × ControllerState :=
  if st.status = .idle then
    (Except.ok (),
     { st with
       session := some { sessionId := st.nextId, startTime := now, status := .recording,
                         transcript := "", cancelRequested := false, audioBuffer := [] },
       nextId := st.nextId + 1 })
  else (Except.error .AlreadyRecording, st)

/-- Modelled from the spec: `cancel()` — from `recording` or
`transcribing` it stops capture immediately, discards buffered audio and
transitions to `cancelled` (spec section 4.3); during the in-flight
action/LLM stages it sets the cancellation flag, which is checked at the
next stage boundary and causes the in-flight result to be discarded
(spec section 5). -/
def cancel_recording (st : ControllerState) : ControllerState :=
  match st.session with
  | none => st
  | some s =>
      match s.status with
      | .recording =>
          { st with
            session := some { s with status := .cancelled, cancelRequested := true,
                                     audioBuffer := [] } }
      | .transcribing =>
          { st with
            session := some { s with status := .cancelled, cancelRequested := true,
                                     audioBuffer := [] } }
      | .thinking_action =>
          { st with session := some { s with cancelRequested := true } }
      | .generating_text =>
          { st with session := some { s with cancelRequested := true } }
      | _ => st

/-- Modelled from the spec: one worker step of the pipeline at a stage
boundary. The cancellation flag is checked at each stage boundary
(spec section 5); a terminal status auto-resets to `idle` by dropping the
session (spec sections 3 and 4.3); otherwise the pipeline progresses
`recording → transcribing → (thinking_action → generating_text)? →
completed` (spec section 4.3). -/
def controllerStep (st : ControllerState) : ControllerState :=
  match st.session with
  | none => st
  | some s =>
      match s.status with
      | .idle => st
      | .completed => { st with session := none }
      | .cancelled => { st with session := none }
      | .error => { st with session := none }
      | .recording =>
          if s.cancelRequested then
            { st with session := some { s with status := .cancelled } }
          else { st with session := some { s with status := .transcribing } }
      | .transcribing =>
          if s.cancelRequested then
            { st with session := some { s with status := .cancelled } }
          else if st.actionConfigured then
            { st with session := some { s with status := .thinking_action } }
          else { st with session := some { s with status := .completed } }
      | .thinking_action =>
          if s.cancelRequested then
            { st with session := some { s with status := .cancelled } }
          else { st with session := some { s with status := .generating_text } }
      | .generating_text =>
          if s.cancelRequested then
            { st with session := some { s with status := .cancelled } }
          else { st with session := some { s with status := .completed } }

/-! ### Audio level events
The listener side is embedded from `src/windows/main/MainWindow.tsx`
(lines 165-178); the emitting side (AudioCaptureEngine's 8-band level
summary) is in the native backend and is modelled from the spec. -/

/-- Payload of an `audio-levels` event as the listener sees it: either a
JS array of numbers or some non-array value. -/
inductive LevelPayload
  | arr (xs : List ℚ)
  | nonArray
deriving DecidableEq, Repr

/-- The `smoothingFactor = 0.7` constant of MainWindow.tsx (line 171). -/
def smoothingFactor : ℚ := 7 / 10

/-- The componentwise smoothing update
`level * smoothingFactor + prevLevels[i] * (1 - smoothingFactor)`
(MainWindow.tsx lines 169-176); both arrays have length 8 whenever this
runs (the guard on the incoming array, and the state invariant on the
previous one). -/
def smoothLevels (newLevels prevLevels : List ℚ) : List ℚ :=
  List.zipWith (fun l p => l * smoothingFactor + p * (1 - smoothingFactor))
    newLevels prevLevels

/-- The `audio-levels` listener of MainWindow.tsx (lines 166-178): the
levels state is replaced by the smoothed array only when the payload is
an array of length exactly 8; otherwise it is left unchanged. -/
def handleAudioLevels (payload : LevelPayload) (prevLevels : List ℚ) : List ℚ :=
  match payload with
  | .arr newLevels =>
      if newLevels.length = 8 then smoothLevels newLevels prevLevels
      else prevLevels
  | .nonArray => prevLevels

/-- The initial levels state `new Array(8).fill(0)` (MainWindow.tsx line 131). -/
def initialLevels : List ℚ := List.replicate 8 0

/-- Clamp a rational into the unit interval. -/
def clamp01 (q : ℚ) : ℚ := max 0 (min 1 q)

/-- Mean absolute sample value normalised by the 16-bit full scale. -/
def meanAbs (xs : List Int) : ℚ :=
  match xs with
  | [] => 0
  | _ => ((xs.map (fun x => (x.natAbs : ℚ))).sum / xs.length) / 32768

/-- The b-th of 8 equal slices of the sample batch. -/
def bandSlice (samples : List Int) (b : Nat) : List Int :=
  (samples.drop (b * (samples.length / 8))).take (samples.length / 8)

/-- Modelled from the spec: the derived 8-band level summary of an
AudioFrame, with values in the unit interval (spec section 3); the
producing AudioCaptureEngine is in the native backend, not under src/. -/
def bandLevels (samples : List Int) : List ℚ :=
  (List.range 8).map (fun b => clamp01 (meanAbs (bandSlice samples b)))

/-- Modelled from the spec: the EventBus publishes each level summary as
an `audio-levels` event (spec sections 4.5 and 6). -/
def audioLevelsEvent (samples : List Int) : String × List ℚ :=
  (audioLevelsChannel, bandLevels samples)

/-! ### Transcription history
Embedded from `src/windows/history/HistoryView.tsx`. -/

/-- The `TranscriptionHistory` record type of HistoryView.tsx (lines
7-12), with the timestamp represented by its epoch-milliseconds value
(what `new Date(timestamp).getTime()` yields for the ISO string). -/
structure TranscriptionRecord where
  id : Int
  timestamp : Int
  audio_path : String
  text : String
deriving DecidableEq, Repr

/-- The order the comparator
`(a, b) => new Date(b.timestamp).getTime() - new Date(a.timestamp).getTime()`
sorts into: latest timestamp first. -/
def newerFirst (a b : TranscriptionRecord) : Prop :=
  b.timestamp ≤ a.timestamp

instance : DecidableRel newerFirst :=
  fun a b => inferInstanceAs (Decidable (b.timestamp ≤ a.timestamp))

instance : IsTotal TranscriptionRecord newerFirst :=
  ⟨fun a b => le_total b.timestamp a.timestamp⟩

instance : IsTrans TranscriptionRecord newerFirst :=
  ⟨fun _ _ _ h1 h2 => le_trans h2 h1⟩

/-- The `sortedTranscriptions` value of HistoryView.tsx (lines 117-120):
a sorted copy of the fetched records, latest first. JS `Array.sort` is a
stable comparison sort; it is modelled by the stable `insertionSort`. -/
def sortedTranscriptions (ts : List TranscriptionRecord) : List TranscriptionRecord :=
  List.insertionSort newerFirst ts

/-! ### Specification-level predicates used by the claims -/

/-- A well-formed level array: length 8 with every component in the unit
interval. -/
def wfLevels (l : List ℚ) : Prop :=
  l.length = 8 ∧ ∀ x ∈ l, 0 ≤ x ∧ x ≤ 1

/-- Strings matched by the JS regex `^[A-Z]$`: a single uppercase ASCII
letter. Stated independently of the boolean tester used inside
`keyToCode`. -/
def IsSingleUpperLetter (s : String) : Prop :=
  ∃ c : Char, s.data = [c] ∧ 'A' ≤ c ∧ c ≤ 'Z'

/-- Strings matched by the JS regex `^[0-9]$`: a single ASCII digit. -/
def IsSingleDigit (s : String) : Prop :=
  ∃ c : Char, s.data = [c] ∧ '0' ≤ c ∧ c ≤ '9'

/-- Strings matched by the JS regex `^F\d+$`: a capital F followed by one
or more ASCII digits. -/
def IsFDigits (s : String) : Prop :=
  ∃ ds : List Char, s.data = 'F' :: ds ∧ ds ≠ [] ∧ ∀ c ∈ ds, '0' ≤ c ∧ c ≤ '9'

/-! ### Supporting lemmas -/

theorem lookup_eq_none_of_forall_ne {β : Type} {s : String} {l : List (String × β)}
    (h : ∀ p ∈ l, s ≠ p.1) : l.lookup s = none := by
  induction l with
  | nil => rfl
  | cons hd tl ih =>
      obtain ⟨k, v⟩ := hd
      have h1 : (s == k) = false :=
        beq_eq_false_iff_ne.2 (h (k, v) (List.mem_cons_self (k, v) tl))
      simp only [List.lookup, h1]
      exact ih fun p hp => h p (List.mem_cons_of_mem (k, v) hp)

theorem not_upper_le_of_le_digit {c : Char} (h : c ≤ '9') : ¬ ('A' ≤ c) :=
  fun hA => absurd (hA.trans h) (by decide)

theorem not_le_digit_of_upper_le {c : Char} (h : 'A' ≤ c) : ¬ (c ≤ '9') :=
  fun h9 => absurd (h.trans h9) (by decide)

theorem lookup_specialKeys_of_single {s : String} {c : Char}
    (h : s.data = [c]) (hc : c ≠ ' ') : specialKeys.lookup s = none := by
  apply lookup_eq_none_of_forall_ne
  intro p hp he
  subst he
  fin_cases hp <;> simp_all
  exact hc h.symm

theorem lookup_specialKeys_of_headF {s : String} {ds : List Char}
    (h : s.data = 'F' :: ds) : specialKeys.lookup s = none := by
  apply lookup_eq_none_of_forall_ne
  intro p hp he
  subst he
  fin_cases hp <;> simp_all

theorem testUpperLetter_iff {s : String} :
    testUpperLetter s = true ↔ IsSingleUpperLetter s := by
  unfold testUpperLetter IsSingleUpperLetter
  cases hd : s.data with
  | nil => simp
  | cons c rest =>
      cases rest with
      | nil => simp
      | cons d rest2 => simp

theorem testDigit_iff {s : String} :
    testDigit s = true ↔ IsSingleDigit s := by
  unfold testDigit IsSingleDigit
  cases hd : s.data with
  | nil => simp
  | cons c rest =>
      cases rest with
      | nil => simp
      | cons d rest2 => simp

theorem testFKey_iff {s : String} : testFKey s = true ↔ IsFDigits s := by
  unfold testFKey IsFDigits
  cases hd : s.data with
  | nil => simp
  | cons c rest => simp [List.all_eq_true, List.isEmpty_iff, and_assoc]

theorem mem_zipWith_exists {f : ℚ → ℚ → ℚ} :
    ∀ {x : ℚ} {a b : List ℚ}, x ∈ List.zipWith f a b →
      ∃ l p, l ∈ a ∧ p ∈ b ∧ x = f l p := by
  intro x a
  induction a with
  | nil => intro b hx; simp at hx
  | cons l as ih =>
      intro b hx
      cases b with
      | nil => simp at hx
      | cons p bs =>
          rcases List.mem_cons.1 hx with h | h
          · exact ⟨l, p, List.mem_cons_self l as, List.mem_cons_self p bs, h⟩
          · obtain ⟨l2, p2, hl, hp, he⟩ := ih h
            exact ⟨l2, p2, List.mem_cons_of_mem l hl, List.mem_cons_of_mem p hp, he⟩

theorem wfLevels_smoothLevels {a b : List ℚ} (ha8 : a.length = 8)
    (ha : ∀ x ∈ a, 0 ≤ x ∧ x ≤ 1) (hb : wfLevels b) :
    wfLevels (smoothLevels a b) := by
  constructor
  · rw [smoothLevels, List.length_zipWith, ha8, hb.1]
    exact min_self 8
  · intro x hx
    obtain ⟨l, p, hl, hp, he⟩ := mem_zipWith_exists hx
    obtain ⟨h1, h2⟩ := ha l hl
    obtain ⟨h3, h4⟩ := hb.2 p hp
    subst he
    simp only [smoothingFactor]
    constructor <;> nlinarith

theorem clamp01_nonneg (q : ℚ) : 0 ≤ clamp01 q := le_max_left 0 _

theorem clamp01_le_one (q : ℚ) : clamp01 q ≤ 1 :=
  max_le (by norm_num) (min_le_left 1 q)

theorem wfLevels_bandLevels (samples : List Int) : wfLevels (bandLevels samples) := by
  constructor
  · simp [bandLevels]
  · intro x hx
    simp only [bandLevels, List.mem_map] at hx
    obtain ⟨b, _, rfl⟩ := hx
    exact ⟨clamp01_nonneg _, clamp01_le_one _⟩

theorem wfLevels_initialLevels : wfLevels initialLevels := by
  constructor
  · rfl
  · intro x hx
    rw [List.eq_of_mem_replicate hx]
    norm_num

theorem wfLevels_foldl {payloads : List (List ℚ)} {prev : List ℚ}
    (hprev : wfLevels prev) (hp : ∀ p ∈ payloads, wfLevels p) :
    wfLevels (payloads.foldl (fun pr p => handleAudioLevels (.arr p) pr) prev) := by
  induction payloads generalizing prev with
  | nil => exact hprev
  | cons p ps ih =>
      simp only [List.foldl_cons]
      have hpw := hp p (List.mem_cons_self p ps)
      have hstep : wfLevels (handleAudioLevels (.arr p) prev) := by
        simp only [handleAudioLevels]
        rw [if_pos hpw.1]
        exact wfLevels_smoothLevels hpw.1 hpw.2 hprev
      exact ih hstep fun q hq => hp q (List.mem_cons_of_mem p hq)

theorem controllerStep_of_none {st : ControllerState} (h : st.session = none) :
    controllerStep st = st := by
  unfold controllerStep
  rw [h]

theorem iterate_controllerStep_of_none {st : ControllerState} (h : st.session = none) :
    ∀ n : Nat, controllerStep^[n] st = st := by
  intro n
  induction n with
  | zero => rfl
  | succ k ihk => rw [Function.iterate_succ_apply, controllerStep_of_none h, ihk]

theorem settle_from_cancelled (sess : Session) (nid : Nat) (ac : Bool)
    (h : sess.status = .cancelled) :
    (∀ n : Nat,
      ((controllerStep^[n] (⟨some sess, nid, ac⟩ : ControllerState)).status ≠ .completed)) ∧
    (∀ n : Nat, 1 ≤ n →
      (controllerStep^[n] (⟨some sess, nid, ac⟩ : ControllerState)).status = .idle) ∧
    (∀ n : Nat,
      (controllerStep^[n] (⟨some sess, nid, ac⟩ : ControllerState)).status ∈
        [ProcessingStatus.cancelled, ProcessingStatus.idle]) := by
  have e2 : controllerStep (⟨some sess, nid, ac⟩ : ControllerState) = ⟨none, nid, ac⟩ := by
    simp [controllerStep, h]
  refine ⟨?_, ?_, ?_⟩
  · intro n
    cases n with
    | zero => simp [ControllerState.status, h]
    | succ k =>
        rw [Function.iterate_succ_apply, e2, iterate_controllerStep_of_none rfl]
        simp [ControllerState.status]
  · intro n hn
    obtain ⟨k, rfl⟩ : ∃ k, n = k + 1 := ⟨n - 1, by omega⟩
    rw [Function.iterate_succ_apply, e2, iterate_controllerStep_of_none rfl]
    rfl
  · intro n
    cases n with
    | zero => simp [ControllerState.status, h]
    | succ k =>
        rw [Function.iterate_succ_apply, e2, iterate_controllerStep_of_none rfl]
        simp [ControllerState.status]

theorem settle_from_flagged (sess : Session) (nid : Nat) (ac : Bool)
    (hflag : sess.cancelRequested = true)
    (h : sess.status = .thinking_action ∨ sess.status = .generating_text) :
    (∀ n : Nat,
      ((controllerStep^[n] (⟨some sess, nid, ac⟩ : ControllerState)).status ≠ .completed)) ∧
    (∀ n : Nat, 2 ≤ n →
      (controllerStep^[n] (⟨some sess, nid, ac⟩ : ControllerState)).status = .idle) ∧
    (∀ n : Nat, 1 ≤ n →
      (controllerStep^[n] (⟨some sess, nid, ac⟩ : ControllerState)).status ∈
        [ProcessingStatus.cancelled, ProcessingStatus.idle]) := by
  have e1 : controllerStep (⟨some sess, nid, ac⟩ : ControllerState) =
      ⟨some { sess with status := .cancelled }, nid, ac⟩ := by
    rcases h with h | h <;> simp [controllerStep, h, hflag]
  obtain ⟨g1, g2, g3⟩ := settle_from_cancelled { sess with status := .cancelled } nid ac rfl
  refine ⟨?_, ?_, ?_⟩
  · intro n
    cases n with
    | zero =>
        rcases h with h | h <;> simp [ControllerState.status, h]
    | succ k =>
        rw [Function.iterate_succ_apply, e1]
        exact g1 k
  · intro n hn
    obtain ⟨k, rfl⟩ : ∃ k, n = k + 1 := ⟨n - 1, by omega⟩
    rw [Function.iterate_succ_apply, e1]
    exact g2 k (by omega)
  · intro n hn
    obtain ⟨k, rfl⟩ : ∃ k, n = k + 1 := ⟨n - 1, by omega⟩
    rw [Function.iterate_succ_apply, e1]
    exact g3 k

/-! ### The claims -/

/-- Claim C1: for every sequence of calls in which `begin_recording()` is
invoked while a recording session is already active (status not idle),
the second call fails with `AlreadyRecording` and the original session's
state (status, session id, accumulated audio) is unchanged by the failed
call. -/
theorem claim_C1_begin_while_active (now : Nat) (st : ControllerState)
    (h : st.status ≠ .idle) :
    begin_recording now st = (Except.error .AlreadyRecording, st) := by
  unfold begin_recording
  rw [if_neg h]

theorem claim_C1_begin_while_active_witness :
    (ControllerState.status ⟨some ⟨0, 0, .recording, "", false, [1, 2]⟩, 1, false⟩ ≠ .idle) ∧
    begin_recording 5 ⟨some ⟨0, 0, .recording, "", false, [1, 2]⟩, 1, false⟩ =
      (Except.error .AlreadyRecording,
       ⟨some ⟨0, 0, .recording, "", false, [1, 2]⟩, 1, false⟩) :=
  ⟨by decide, claim_C1_begin_while_active 5 _ (by decide)⟩

/-- Claim C2: for every session, if `cancel_recording()` is called at any
point between `begin_recording()` and completion (status recording,
transcribing, thinking_action or generating_text), the status is never
`completed` afterwards, is in the cancelled/idle set from the first
worker step on, and is `idle` within two worker steps. -/
theorem claim_C2_cancel_never_completed (st : ControllerState)
    (h : st.status ∈ activeStatuses) :
    (∀ n : Nat, (controllerStep^[n] (cancel_recording st)).status ≠ .completed) ∧
    (∀ n : Nat, 2 ≤ n → (controllerStep^[n] (cancel_recording st)).status = .idle) ∧
    (∀ n : Nat, 1 ≤ n →
      (controllerStep^[n] (cancel_recording st)).status ∈
        [ProcessingStatus.cancelled, ProcessingStatus.idle]) := by
  obtain ⟨sess, nid, ac⟩ := st
  cases sess with
  | none => simp [ControllerState.status, activeStatuses] at h
  | some s =>
      obtain ⟨i, t0, stat, tr, c, buf⟩ := s
      simp only [ControllerState.status, activeStatuses, List.mem_cons,
        List.not_mem_nil, or_false] at h
      rcases h with rfl | rfl | rfl | rfl
      · have e1 : cancel_recording ⟨some ⟨i, t0, .recording, tr, c, buf⟩, nid, ac⟩ =
            ⟨some ⟨i, t0, .cancelled, tr, true, []⟩, nid, ac⟩ := rfl
        rw [e1]
        obtain ⟨g1, g2, g3⟩ :=
          settle_from_cancelled ⟨i, t0, .cancelled, tr, true, []⟩ nid ac rfl
        exact ⟨g1, fun n hn => g2 n (by omega), fun n _ => g3 n⟩
      · have e1 : cancel_recording ⟨some ⟨i, t0, .transcribing, tr, c, buf⟩, nid, ac⟩ =
            ⟨some ⟨i, t0, .cancelled, tr, true, []⟩, nid, ac⟩ := rfl
        rw [e1]
        obtain ⟨g1, g2, g3⟩ :=
          settle_from_cancelled ⟨i, t0, .cancelled, tr, true, []⟩ nid ac rfl
        exact ⟨g1, fun n hn => g2 n (by omega), fun n _ => g3 n⟩
      · have e1 : cancel_recording ⟨some ⟨i, t0, .thinking_action, tr, c, buf⟩, nid, ac⟩ =
            ⟨some ⟨i, t0, .thinking_action, tr, true, buf⟩, nid, ac⟩ := rfl
        rw [e1]
        exact settle_from_flagged ⟨i, t0, .thinking_action, tr, true, buf⟩ nid ac rfl
          (Or.inl rfl)
      · have e1 : cancel_recording ⟨some ⟨i, t0, .generating_text, tr, c, buf⟩, nid, ac⟩ =
            ⟨some ⟨i, t0, .generating_text, tr, true, buf⟩, nid, ac⟩ := rfl
        rw [e1]
        exact settle_from_flagged ⟨i, t0, .generating_text, tr, true, buf⟩ nid ac rfl
          (Or.inr rfl)

theorem claim_C2_cancel_never_completed_witness :
    (ControllerState.status ⟨some ⟨0, 0, .transcribing, "", false, [3]⟩, 1, true⟩ ∈
      activeStatuses) ∧
    (∀ n : Nat, 2 ≤ n →
      (controllerStep^[n]
        (cancel_recording ⟨some ⟨0, 0, .transcribing, "", false, [3]⟩, 1, true⟩)).status =
        .idle) :=
  ⟨by decide, (claim_C2_cancel_never_completed _ (by decide)).2.1⟩

/-- Claim C3: the history view presents the records returned by
`get_transcription_history()` in reverse-chronological order of their
timestamp field (latest first) — `sortedTranscriptions` is a permutation
of the fetched list that is sorted by descending timestamp, whatever
order the store returned. -/
theorem claim_C3_history_sorted (ts : List TranscriptionRecord) :
    List.Sorted newerFirst (sortedTranscriptions ts) ∧
    (sortedTranscriptions ts).Perm ts :=
  ⟨List.sorted_insertionSort newerFirst ts, List.perm_insertionSort newerFirst ts⟩

/-- Claim C4: every payload of an `audio-levels` event is an array of
exactly 8 numbers in the unit interval, and under that precondition the
main window's displayed level state — updated componentwise to
0.7 * incoming + 0.3 * previous — is always an array of 8 numbers in the
unit interval. -/
theorem claim_C4_levels_invariant :
    (∀ samples : List Int, wfLevels (audioLevelsEvent samples).2) ∧
    (∀ payloads : List (List ℚ), (∀ p ∈ payloads, wfLevels p) →
      wfLevels (payloads.foldl (fun prev p => handleAudioLevels (.arr p) prev)
        initialLevels)) :=
  ⟨fun samples => wfLevels_bandLevels samples,
   fun _ hp => wfLevels_foldl wfLevels_initialLevels hp⟩

theorem claim_C4_levels_invariant_witness :
    (∀ p ∈ [[(1 : ℚ), 0, 1, 0, 1, 0, 1, 0]], wfLevels p) ∧
    wfLevels ([[(1 : ℚ), 0, 1, 0, 1, 0, 1, 0]].foldl
      (fun prev p => handleAudioLevels (.arr p) prev) initialLevels) :=
  ⟨by intro p hp
      simp only [List.mem_singleton] at hp
      subst hp
      refine ⟨rfl, ?_⟩
      intro x hx
      fin_cases hx <;> norm_num,
   claim_C4_levels_invariant.2 _
     (by intro p hp
         simp only [List.mem_singleton] at hp
         subst hp
         refine ⟨rfl, ?_⟩
         intro x hx
         fin_cases hx <;> norm_num)⟩

/-- Claim C5: session status events are emitted on the
`audio-processing-status` channel — the channel the main window's status
listener subscribes to — and every payload is one of the eight
ProcessingStatus wire values, which is exactly the value set the main
window's `processingStatus` state admits. -/
theorem claim_C5_status_channel_and_values :
    (∀ s : ProcessingStatus,
      (emitStatusEvent s).1 = mainWindowStatusChannel ∧
      (emitStatusEvent s).2 ∈ processingStatusWireValues ∧
      parseProcessingStatus (emitStatusEvent s).2 = some s) ∧
    (∀ payload : String,
      (parseProcessingStatus payload).isSome = true ↔
        payload ∈ processingStatusWireValues) := by
  constructor
  · intro s
    cases s <;> exact ⟨rfl, by decide, rfl⟩
  · intro payload
    constructor
    · intro h
      unfold parseProcessingStatus at h
      split at h <;> simp_all [processingStatusWireValues]
    · intro h
      fin_cases h <;> rfl

/-- Claim C6 (code bug): the remove action of the settings UI calls
`update_shortcuts` with the argument names `key` and `modifiers`, not the
`key`/`modifier` pair of the command's signature that the set action
uses: the `modifier` parameter is absent from `handleHotkeyRemoveArgs`
even though both supplied values are the empty string. -/
theorem claim_C6_remove_misnames_modifier :
    (∀ k m : String,
      ((handleHotkeySetArgs k m).map Prod.fst).Perm updateShortcutsParams) ∧
    "modifier" ∉ handleHotkeyRemoveArgs.map Prod.fst ∧
    "modifiers" ∈ handleHotkeyRemoveArgs.map Prod.fst ∧
    handleHotkeyRemoveArgs.map Prod.snd = ["", ""] := by
  refine ⟨fun k m => ?_, by decide, by decide, by decide⟩
  simp only [handleHotkeySetArgs, List.map, updateShortcutsParams]
  exact List.Perm.swap "key" "modifier" []

/-- Claim C7: for every device id among the enumerated audio devices,
`set_default_device(id)` followed by `get_default_device()` returns a
descriptor whose id equals the id that was set. -/
theorem claim_C7_device_roundtrip (st : DeviceSettings) (d : AudioDevice)
    (hd : d ∈ st.devices) :
    ∃ r : AudioDevice,
      get_default_device (set_default_device st d.id) = some r ∧ r.id = d.id := by
  have hsome : (st.devices.find? (fun x => x.id == d.id)).isSome = true :=
    List.find?_isSome.2 ⟨d, hd, by simp⟩
  obtain ⟨r, hr⟩ := Option.isSome_iff_exists.1 hsome
  refine ⟨r, ?_, ?_⟩
  · simp only [get_default_device, set_default_device]
    exact hr
  · have := List.find?_some hr
    simpa using this

theorem claim_C7_device_roundtrip_witness :
    ((⟨"mic2", "Mic 2"⟩ : AudioDevice) ∈
      (⟨[⟨"mic1", "Mic 1"⟩, ⟨"mic2", "Mic 2"⟩], none⟩ : DeviceSettings).devices) ∧
    (∃ r : AudioDevice,
      get_default_device
        (set_default_device ⟨[⟨"mic1", "Mic 1"⟩, ⟨"mic2", "Mic 2"⟩], none⟩ "mic2") =
          some r ∧ r.id = "mic2") :=
  ⟨by decide, claim_C7_device_roundtrip _ ⟨"mic2", "Mic 2"⟩ (by decide)⟩

/-- Claim C8: for every `audio-levels` event whose payload is not an
array of length exactly 8, the main window's displayed level state is
left unchanged by that event. -/
theorem claim_C8_levels_frame_condition (payload : LevelPayload) (prev : List ℚ)
    (h : ∀ xs : List ℚ, payload = .arr xs → xs.length ≠ 8) :
    handleAudioLevels payload prev = prev := by
  cases payload with
  | nonArray => rfl
  | arr xs =>
      have hx := h xs rfl
      simp [handleAudioLevels, hx]

theorem claim_C8_levels_frame_condition_witness :
    (∀ xs : List ℚ, LevelPayload.arr [1, 2, 3] = .arr xs → xs.length ≠ 8) ∧
    handleAudioLevels (.arr [1, 2, 3]) [5, 6] = [5, 6] :=
  ⟨fun xs hx => by cases hx; decide,
   claim_C8_levels_frame_condition _ _ (fun xs hx => by cases hx; decide)⟩

/-- Claim C9: whenever the hotkey recorder commits a shortcut (invokes
`onHotkeySet`), the modifier argument is one of CONTROL, SHIFT, ALT,
SUPER; a non-modifier key press during the modifier step commits nothing
and leaves the pending key (and the whole recorder state) unchanged. -/
theorem claim_C9_commit_modifier_set (st : RecorderState) (eKey : String) :
    (∀ k m : String, (handleKeyDown st eKey).2 = some (k, m) →
      m ∈ ["CONTROL", "SHIFT", "ALT", "SUPER"]) ∧
    (st.isRecording = true → st.recordingStep = .modifier → eKey ∉ modifierKeyNames →
      handleKeyDown st eKey = (st, none)) := by
  obtain ⟨rec, step, tk⟩ := st
  constructor
  · intro k m hm
    cases rec with
    | false => simp [handleKeyDown] at hm
    | true =>
        cases step with
        | key => simp [handleKeyDown] at hm
        | modifier =>
            by_cases hmem : eKey ∈ modifierKeyNames
            · simp only [handleKeyDown, Bool.true_eq_false, if_false, if_pos hmem] at hm
              obtain ⟨h1, h2⟩ := Prod.mk.injEq .. ▸ Option.some.injEq .. ▸ hm
              simp only [modifierKeyNames, List.mem_cons, List.not_mem_nil,
                or_false] at hmem
              rcases hmem with rfl | rfl | rfl | rfl <;> rw [← h2] <;> decide
            · simp [handleKeyDown, hmem] at hm
  · intro h1 h2 h3
    subst h1
    subst h2
    simp [handleKeyDown, h3]

theorem claim_C9_commit_modifier_set_witness :
    ((handleKeyDown ⟨true, .modifier, "KeyQ"⟩ "Meta").2 = some ("KeyQ", "SUPER") ∧
      "SUPER" ∈ ["CONTROL", "SHIFT", "ALT", "SUPER"]) ∧
    ("Q" ∉ modifierKeyNames ∧
      handleKeyDown ⟨true, .modifier, "KeyQ"⟩ "Q" = (⟨true, .modifier, "KeyQ"⟩, none)) :=
  ⟨⟨by decide, (claim_C9_commit_modifier_set ⟨true, .modifier, "KeyQ"⟩ "Meta").1
      "KeyQ" "SUPER" (by decide)⟩,
   ⟨by decide, (claim_C9_commit_modifier_set ⟨true, .modifier, "KeyQ"⟩ "Q").2
      rfl rfl (by decide)⟩⟩

/-- Claim C10: `keyToCode` is a total function on strings computing, in
order: the fixed code of each of the fourteen special keys, `Key` + L for
a single uppercase letter L, `Digit` + d for a single digit d, the
uppercase form for an F-key (F followed by digits), and the uppercase
form for every other input. -/
theorem claim_C10_keyToCode_total (s : String) :
    (keyToCode " " = "Space" ∧ keyToCode "ArrowUp" = "ArrowUp" ∧
     keyToCode "ArrowDown" = "ArrowDown" ∧ keyToCode "ArrowLeft" = "ArrowLeft" ∧
     keyToCode "ArrowRight" = "ArrowRight" ∧ keyToCode "Control" = "Control" ∧
     keyToCode "Shift" = "Shift" ∧ keyToCode "Alt" = "Alt" ∧
     keyToCode "Meta" = "Super" ∧ keyToCode "Enter" = "Enter" ∧
     keyToCode "Escape" = "Escape" ∧ keyToCode "Backspace" = "Backspace" ∧
     keyToCode "Delete" = "Delete" ∧ keyToCode "Tab" = "Tab") ∧
    (IsSingleUpperLetter s → keyToCode s = "Key" ++ s) ∧
    (IsSingleDigit s → keyToCode s = "Digit" ++ s) ∧
    (IsFDigits s → keyToCode s = jsToUpperCase s) ∧
    ((∀ p ∈ specialKeys, s ≠ p.1) → ¬IsSingleUpperLetter s → ¬IsSingleDigit s →
      ¬IsFDigits s → keyToCode s = jsToUpperCase s) := by
  refine ⟨by decide, ?_, ?_, ?_, ?_⟩
  · intro hs
    obtain ⟨c, hdata, hA, hZ⟩ := hs
    have hlk : specialKeys.lookup s = none :=
      lookup_specialKeys_of_single hdata
        (fun he => absurd (he ▸ hA) (by decide))
    have ht : testUpperLetter s = true := testUpperLetter_iff.2 ⟨c, hdata, hA, hZ⟩
    simp [keyToCode, hlk, ht]
  · intro hs
    obtain ⟨c, hdata, h0, h9⟩ := hs
    have hlk : specialKeys.lookup s = none :=
      lookup_specialKeys_of_single hdata
        (fun he => absurd (he ▸ h0) (by decide))
    have hnl : testUpperLetter s = false := by
      simp only [testUpperLetter, hdata]
      simp [not_upper_le_of_le_digit h9]
    have ht : testDigit s = true := testDigit_iff.2 ⟨c, hdata, h0, h9⟩
    simp [keyToCode, hlk, hnl, ht]
  · intro hs
    obtain ⟨ds, hdata, hne, hds⟩ := hs
    have hlk : specialKeys.lookup s = none := lookup_specialKeys_of_headF hdata
    obtain ⟨d, ds2, rfl⟩ : ∃ d ds2, ds = d :: ds2 := by
      cases ds with
      | nil => exact absurd rfl hne
      | cons d ds2 => exact ⟨d, ds2, rfl⟩
    have hnl : testUpperLetter s = false := by
      simp [testUpperLetter, hdata]
    have hnd : testDigit s = false := by
      simp [testDigit, hdata]
    have ht : testFKey s = true := testFKey_iff.2 ⟨d :: ds2, hdata, hne, hds⟩
    simp [keyToCode, hlk, hnl, hnd, ht]
  · intro hno hnl hnd hnf
    have hlk : specialKeys.lookup s = none := lookup_eq_none_of_forall_ne hno
    have h1 : testUpperLetter s = false := by
      have := mt testUpperLetter_iff.1 hnl
      rwa [Bool.not_eq_true] at this
    have h2 : testDigit s = false := by
      have := mt testDigit_iff.1 hnd
      rwa [Bool.not_eq_true] at this
    have h3 : testFKey s = false := by
      have := mt testFKey_iff.1 hnf
      rwa [Bool.not_eq_true] at this
    simp [keyToCode, hlk, h1, h2, h3]

theorem claim_C10_keyToCode_total_witness :
    (IsSingleUpperLetter "Q" ∧ keyToCode "Q" = "KeyQ") ∧
    (IsSingleDigit "7" ∧ keyToCode "7" = "Digit7") ∧
    (IsFDigits "F5" ∧ keyToCode "F5" = jsToUpperCase "F5") ∧
    ((∀ p ∈ specialKeys, "Home" ≠ p.1) ∧ keyToCode "Home" = jsToUpperCase "Home") :=
  ⟨⟨⟨'Q', by decide⟩, (claim_C10_keyToCode_total "Q").2.1 ⟨'Q', by decide⟩⟩,
   ⟨⟨'7', by decide⟩, (claim_C10_keyToCode_total "7").2.2.1 ⟨'7', by decide⟩⟩,
   ⟨⟨['5'], by decide⟩, (claim_C10_keyToCode_total "F5").2.2.2.1 ⟨['5'], by decide⟩⟩,
   ⟨by decide, (claim_C10_keyToCode_total "Home").2.2.2.2 (by decide)
      (by rintro ⟨c, hc, -, -⟩; simp at hc)
      (by rintro ⟨c, hc, -, -⟩; simp at hc)
      (by rintro ⟨ds, hc, -, -⟩; simp at hc)⟩⟩

end Rune
